import Mathlib

/-!
Verification of the pipeline amendment and step-execution engine of the
`proceed` repository (`src/proceed/model.py` and `src/proceed/docker_runner.py`).

The Python data values that flow through `apply_args` (strings, lists, dicts,
booleans, integers, `None`) are embedded as the mutually inductive type
`Value` / `VList` / `VDict`.  Python dict displays (`{f(k): f(v) for ...}` and
`{**a, **b}`) are sequences of `d[k] = v` assignments into a fresh dict, where
an assignment whose key is already present (by structural equality, which is
what Python `==` is on these data) replaces the value in place while keeping
the original key and position; `pyDictInsert` models one such assignment.

`string.Template(x).safe_substitute(args)` (used by `apply_args`) is modelled
by `substitute`: it scans left to right; `$$` becomes `$`; `$name` and
`${name}` become the arg value when `name` is a key of `args` and stay
verbatim otherwise; a `$` that starts no valid pattern stays verbatim.  The
identifier syntax is Python's `(?a:[_a-z][_a-z0-9]*)` with IGNORECASE.  The
scanner recursion is fueled (`substAux`); the wrapper supplies one unit of
fuel per character plus one, which is never exhausted since every step
consumes at least one character.
-/

def isIdentStart (c : Char) : Bool :=
  c = '_' || ('a' ≤ c && c ≤ 'z') || ('A' ≤ c && c ≤ 'Z')

def isIdentCont (c : Char) : Bool :=
  isIdentStart c || ('0' ≤ c && c ≤ '9')

def lookupArg : List (String × String) → String → Option String
  | [], _ => none
  | (k, v) :: rest, key => if k = key then some v else lookupArg rest key

/-- The `{(?P<braced>ID)}` alternative of `Template.pattern`: an identifier
followed by a closing brace.  Returns the identifier and the text after the
brace, or `none` when the braced form does not match (Python then treats the
`$` as `invalid` and leaves it verbatim). -/
def parseBraced (cs : List Char) : Option (List Char × List Char) :=
  match cs.takeWhile isIdentCont, cs.dropWhile isIdentCont with
  | c :: idtail, '}' :: rem =>
    if isIdentStart c then some (c :: idtail, rem) else none
  | _, _ => none

def substAux (args : List (String × String)) : Nat → List Char → List Char
  | 0, cs => cs
  | _ + 1, [] => []
  | fuel + 1, c :: rest =>
    if c = '$' then
      match rest with
      | [] => ['$']
      | d :: rest2 =>
        if d = '$' then '$' :: substAux args fuel rest2
        else if isIdentStart d then
          let idf := (d :: rest2).takeWhile isIdentCont
          let rem := (d :: rest2).dropWhile isIdentCont
          match lookupArg args (String.mk idf) with
          | some v => v.data ++ substAux args fuel rem
          | none => '$' :: (idf ++ substAux args fuel rem)
        else if d = '{' then
          match parseBraced rest2 with
          | some (idf, rem) =>
            match lookupArg args (String.mk idf) with
            | some v => v.data ++ substAux args fuel rem
            | none => '$' :: '{' :: (idf ++ '}' :: substAux args fuel rem)
          | none => '$' :: substAux args fuel rest
        else '$' :: substAux args fuel rest
    else c :: substAux args fuel rest

/-- `string.Template(s).safe_substitute(args)`. -/
def substitute (args : List (String × String)) (s : String) : String :=
  String.mk (substAux args (s.data.length + 1) s.data)

/-- A string with no `$` at all (no placeholders and no escapes). -/
def noDollarStr (s : String) : Bool :=
  s.data.all (fun c => c ≠ '$')

def noDDChars : List Char → Bool
  | [] => true
  | [_] => true
  | c :: d :: rest => !(c = '$' && d = '$') && noDDChars (d :: rest)

/-- A string with no `$$` escape sequence. -/
def noDDStr (s : String) : Bool :=
  noDDChars s.data

mutual
inductive Value where
  | vnone : Value
  | vbool (b : Bool) : Value
  | vint (n : Int) : Value
  | vstr (s : String) : Value
  | vlist (l : VList) : Value
  | vdict (d : VDict) : Value
deriving DecidableEq
inductive VList where
  | nil : VList
  | cons (head : Value) (tail : VList) : VList
deriving DecidableEq
inductive VDict where
  | nil : VDict
  | cons (key : Value) (val : Value) (tail : VDict) : VDict
deriving DecidableEq
end

/-- Python truthiness (`bool(x)`) of the embedded values. -/
def truthy : Value → Bool
  | .vnone => false
  | .vbool b => b
  | .vint n => n != 0
  | .vstr s => s ≠ ""
  | .vlist .nil => false
  | .vlist (.cons _ _) => true
  | .vdict .nil => false
  | .vdict (.cons _ _ _) => true

/-- Python `x or y` on field values (used by `Step._with_prototype_applied`). -/
def pyOr (a b : Value) : Value :=
  if truthy a then a else b

def keyMemD : VDict → Value → Bool
  | .nil, _ => false
  | .cons k' _ t, k => (k' = k : Bool) || keyMemD t k

def VDict.append : VDict → VDict → VDict
  | .nil, d => d
  | .cons k v t, d => .cons k v (VDict.append t d)

/-- `d[k] = v` on a dict that already holds `k`: the stored key and its
position are kept, only the value changes. -/
def replaceKeyD : VDict → Value → Value → VDict
  | .nil, _, _ => .nil
  | .cons k' v' t, k, v =>
    if k' = k then .cons k' v t else .cons k' v' (replaceKeyD t k v)

/-- One Python dict assignment `d[k] = v`. -/
def pyDictInsert (acc : VDict) (k v : Value) : VDict :=
  if keyMemD acc k then replaceKeyD acc k v else VDict.append acc (.cons k v .nil)

mutual
/-- `apply_args` from `model.py`: recursively apply args to string templates
found in `x` and its elements. -/
def apply_args (args : List (String × String)) : Value → Value
  | .vstr s => .vstr (substitute args s)
  | .vlist l => .vlist (applyArgsList args l)
  | .vdict d => .vdict (applyArgsDict args d .nil)
  | x => x
def applyArgsList (args : List (String × String)) : VList → VList
  | .nil => .nil
  | .cons h t => .cons (apply_args args h) (applyArgsList args t)
def applyArgsDict (args : List (String × String)) : VDict → VDict → VDict
  | .nil, acc => acc
  | .cons k v t, acc =>
    applyArgsDict args t (pyDictInsert acc (apply_args args k) (apply_args args v))
end

mutual
/-- Does `P` hold of every string in the value (dict keys included)? -/
def allStrV (P : String → Bool) : Value → Bool
  | .vstr s => P s
  | .vlist l => allStrL P l
  | .vdict d => allStrD P d
  | _ => true
def allStrL (P : String → Bool) : VList → Bool
  | .nil => true
  | .cons h t => allStrV P h && allStrL P t
def allStrD (P : String → Bool) : VDict → Bool
  | .nil => true
  | .cons k v t => allStrV P k && allStrV P v && allStrD P t
end

def keysNodupD : VDict → Bool
  | .nil => true
  | .cons k _ t => !(keyMemD t k) && keysNodupD t

mutual
/-- Every dict inside the value has pairwise distinct keys (true of every
value decoded from Python data, where dicts cannot hold duplicate keys). -/
def wfKeysV : Value → Bool
  | .vlist l => wfKeysL l
  | .vdict d => keysNodupD d && wfKeysD d
  | _ => true
def wfKeysL : VList → Bool
  | .nil => true
  | .cons h t => wfKeysV h && wfKeysL t
def wfKeysD : VDict → Bool
  | .nil => true
  | .cons k v t => wfKeysV k && wfKeysV v && wfKeysD t
end

def keysFreshFromD : VDict → VDict → Bool
  | .nil, _ => true
  | .cons k _ t, acc => !(keyMemD acc k) && keysFreshFromD t acc

example : apply_args [("a", "b")] (.vstr "x ${a} $a $c") = .vstr "x b b $c" := rfl
example : apply_args [("a", "b")] (.vstr "$$a") = .vstr "$a" := rfl
example : apply_args [] (.vstr "$$a") = .vstr "$a" := rfl
example : apply_args [("a", "b")]
    (.vdict (.cons (.vstr "$a") (.vstr "1") (.cons (.vstr "b") (.vstr "$a") .nil))) =
    .vdict (.cons (.vstr "b") (.vstr "b") .nil) := rfl

/-!
The `Step` and `Pipeline` dataclasses of `model.py`.  Field order, names and
defaults follow the source.  `Pipeline.args` is declared `dict[str, str]` in
the source and is embedded as an association list with the dict's key order;
`Pipeline.prototype` is `None` or a `Step` (a `Step` instance is always truthy
in Python, so `if self.prototype:` is exactly an `Option` match).
-/

structure Step where
  name : Value := .vnone
  description : Value := .vnone
  image : Value := .vnone
  command : Value := .vlist .nil
  volumes : Value := .vdict .nil
  working_dir : Value := .vnone
  match_done : Value := .vlist .nil
  match_in : Value := .vlist .nil
  match_out : Value := .vlist .nil
  match_summary : Value := .vlist .nil
  environment : Value := .vdict .nil
  gpus : Value := .vnone
  user : Value := .vnone
  network_mode : Value := .vnone
  mac_address : Value := .vnone
deriving DecidableEq

instance : Inhabited Step := ⟨{}⟩

/-- `Step._with_args_applied`: a new Step with args applied to every field. -/
def Step._with_args_applied (s : Step) (args : List (String × String)) : Step :=
  { name := apply_args args s.name
    description := apply_args args s.description
    image := apply_args args s.image
    command := apply_args args s.command
    volumes := apply_args args s.volumes
    working_dir := apply_args args s.working_dir
    match_done := apply_args args s.match_done
    match_in := apply_args args s.match_in
    match_out := apply_args args s.match_out
    match_summary := apply_args args s.match_summary
    environment := apply_args args s.environment
    gpus := apply_args args s.gpus
    network_mode := apply_args args s.network_mode
    mac_address := apply_args args s.mac_address
    user := apply_args args s.user }

def dictEntries : Value → VDict
  | .vdict d => d
  | _ => .nil

/-- Assign every entry of the second dict into the first, in order. -/
def applyInserts : VDict → VDict → VDict
  | acc, .nil => acc
  | acc, .cons k v t => applyInserts (pyDictInsert acc k v) t

/-- `{**a, **b}`: a fresh dict filled with `a`'s entries then `b`'s entries. -/
def dict_update (a b : Value) : Value :=
  .vdict (applyInserts (applyInserts .nil (dictEntries a)) (dictEntries b))

/-- `Step._with_prototype_applied`: accept default values from the prototype.
Scalar fields use Python `or` (the step's value is kept only when truthy);
`volumes` and `environment` are `{**prototype.x, **self.x}`. -/
def Step._with_prototype_applied (s : Step) (prototype : Option Step) : Step :=
  match prototype with
  | none => s
  | some p =>
    { name := pyOr s.name p.name
      description := pyOr s.description p.description
      image := pyOr s.image p.image
      command := pyOr s.command p.command
      volumes := dict_update p.volumes s.volumes
      working_dir := pyOr s.working_dir p.working_dir
      match_done := pyOr s.match_done p.match_done
      match_in := pyOr s.match_in p.match_in
      match_out := pyOr s.match_out p.match_out
      match_summary := pyOr s.match_summary p.match_summary
      environment := dict_update p.environment s.environment
      gpus := pyOr s.gpus p.gpus
      network_mode := pyOr s.network_mode p.network_mode
      mac_address := pyOr s.mac_address p.mac_address
      user := pyOr s.user p.user }

structure Pipeline where
  version : String := "0.0.1"
  description : Value := .vnone
  args : List (String × String) := []
  prototype : Option Step := none
  steps : List Step := []
deriving DecidableEq

instance : Inhabited Pipeline := ⟨{}⟩

/-- `Pipeline._combine_args`: update declared values from the given args, but
don't add new keys. -/
def Pipeline._combine_args (p : Pipeline) (args : List (String × String)) :
    List (String × String) :=
  p.args.map (fun kv => (kv.1, (lookupArg args kv.1).getD kv.2))

/-- `Pipeline._with_args_applied`: combine args, then apply them to the
prototype (when present) and to every step. -/
def Pipeline._with_args_applied (p : Pipeline) (args : List (String × String)) :
    Pipeline :=
  let combined_args := p._combine_args args
  { version := p.version
    description := p.description
    args := combined_args
    prototype := p.prototype.map (fun proto => proto._with_args_applied combined_args)
    steps := p.steps.map (fun step => step._with_args_applied combined_args) }

def Pipeline._with_prototype_applied (p : Pipeline) : Pipeline :=
  { version := p.version
    description := p.description
    args := p.args
    prototype := p.prototype
    steps := p.steps.map (fun step => step._with_prototype_applied p.prototype) }

/-- The amendment performed by `run_pipeline`:
`original._with_args_applied(args)._with_prototype_applied()`. -/
def amend (original : Pipeline) (args : List (String × String)) : Pipeline :=
  (original._with_args_applied args)._with_prototype_applied

/-!
The executor of `docker_runner.py`.

External collaborators are parameters: the file matcher
`match_patterns_in_dirs(dirs, patterns)` is a function
`matcher : List Value → Value → Matches`; the container engine is a function
`eng : Step → Nat → EngineOutcome` giving the outcome of the create-and-start
request of each attempt (attempt numbers start at 0).  Engine errors are
raised by `client.containers.run`, before the step log file is opened, which
is where the classified exceptions of `run_container` arise; a successful
attempt opens the step log with mode `'w'` (truncating it) and streams the
container's log chunks into it.  `datetime.now` is a clock sequence
`clock : Nat → Nat` read at successive indices.  A log file is its list of
written chunks; writes with mode `'a'` append, a successful attempt's
`open(log_path, 'w')` replaces the content.
-/

/-- `match_patterns_in_dirs` result: host dir → (file path → content digest). -/
abbrev Matches := List (String × List (String × String))

structure Timing where
  start : Option Nat := none
  finish : Option Nat := none
  duration : Option Int := none
deriving DecidableEq

/-- `Timing._is_complete`: both timestamps present and a positive duration.
(The source compares `self.duration > 0` only after both timestamps are
known to be present; a `None` duration with both present would raise, and
never occurs in records produced by the runner.) -/
def Timing._is_complete (t : Timing) : Bool :=
  t.start.isSome && t.finish.isSome && t.duration.getD 0 > 0

structure StepResult where
  name : Value := .vnone
  image_id : Option String := none
  exit_code : Option Int := none
  log_file : Option String := none
  timing : Option Timing := none
  files_done : Matches := []
  files_in : Matches := []
  files_out : Matches := []
  files_summary : Matches := []
  skipped : Bool := false
deriving DecidableEq

instance : Inhabited StepResult := ⟨{}⟩

structure ExecutionRecord where
  original : Pipeline := {}
  amended : Pipeline := {}
  timing : Timing := {}
  step_results : List StepResult := []
deriving DecidableEq

/-- Outcome of one engine create-and-start attempt: either the container runs
to completion (its streamed log chunks, wait status, resolved image id), or a
classified exception is raised. -/
inductive EngineOutcome where
  | success (logChunks : List String) (statusCode : Int) (imageId : String)
  | clientError (msg : String)
  | serverError (msg : String)
  | dockerError (msg : String)
  | unexpectedError (msg : String)
deriving DecidableEq

/-- The exceptions `run_container` can hand back: `APIError` (client or
server side), another `DockerException`, or an unexpected non-Docker error. -/
inductive RunException where
  | apiError (isClient : Bool) (explanation : String)
  | dockerException (msg : String)
  | unexpected (msg : String)
deriving DecidableEq

/-- Result of `run_container`: the `(container, exit_code, exception)` tuple
plus the step log file content and the number of engine invocations made.
The container handle is identified by its resolved image id. -/
structure RunContainerResult where
  container : Option String
  exit_code : Int
  exception : Option RunException
  log : List String
  invocations : Nat
deriving DecidableEq

def retryMarker (attempts max_attempts : Nat) : String :=
  "Container attempts/retries at " ++ toString attempts ++ " out of " ++
    toString max_attempts ++ ".\n"

/-- The `"<ErrorKind>: <details>"` line `run_step` appends on failure. -/
def errorMessage : RunException → String
  | .apiError _ explanation => "APIError: " ++ explanation ++ "\n"
  | .dockerException msg => "DockerException: " ++ msg ++ "\n"
  | .unexpected msg => "Exception: " ++ msg ++ "\n"

/-- The `while attempts < max_attempts` loop of `run_container`. `remaining`
is `max_attempts - attempts`.  A successful attempt truncates the log file
(mode `'w'`) and returns; a client or non-API Docker error returns at once; a
server or unexpected error records the exception, appends a retry marker
(mode `'a'`) and loops. -/
def run_container_loop (step : Step) (eng : Step → Nat → EngineOutcome)
    (max_attempts : Nat) (log : List String) (retried : Option RunException)
    (attempts : Nat) : Nat → RunContainerResult
  | 0 => ⟨none, -1, retried, log, attempts⟩
  | remaining + 1 =>
    match eng step attempts with
    | .success logChunks statusCode imageId =>
      ⟨some imageId, statusCode, none, logChunks, attempts + 1⟩
    | .clientError msg =>
      ⟨none, -1, some (.apiError true msg), log, attempts + 1⟩
    | .dockerError msg =>
      ⟨none, -1, some (.dockerException msg), log, attempts + 1⟩
    | .serverError msg =>
      run_container_loop step eng max_attempts
        (log ++ [retryMarker (attempts + 1) max_attempts])
        (some (.apiError false msg)) (attempts + 1) remaining
    | .unexpectedError msg =>
      run_container_loop step eng max_attempts
        (log ++ [retryMarker (attempts + 1) max_attempts])
        (some (.unexpected msg)) (attempts + 1) remaining

/-- `run_container` of `docker_runner.py`. -/
def run_container (step : Step) (eng : Step → Nat → EngineOutcome)
    (log : List String) (max_attempts : Nat := 3) : RunContainerResult :=
  run_container_loop step eng max_attempts log none 0 max_attempts

def dictKeysAux : VDict → List Value
  | .nil => []
  | .cons k _ t => k :: dictKeysAux t

/-- `step.volumes.keys()`. -/
def dictKeys : Value → List Value
  | .vdict d => dictKeysAux d
  | _ => []

/-- Result of `run_step`: the `StepResult` plus the step log file content,
the number of engine invocations, and the next clock index. -/
structure RunStepResult where
  result : StepResult
  log : List String
  invocations : Nat
  tNext : Nat
deriving DecidableEq

/-- `run_step` of `docker_runner.py`. -/
def run_step (step : Step) (log_path : String) (force_rerun : Bool)
    (matcher : List Value → Value → Matches) (eng : Step → Nat → EngineOutcome)
    (log : List String) (clock : Nat → Nat) (t : Nat) (max_attempts : Nat := 3) :
    RunStepResult :=
  let start := clock t
  let volume_dirs := dictKeys step.volumes
  let files_done := matcher volume_dirs step.match_done
  if !files_done.isEmpty && !force_rerun then
    ⟨{ name := step.name
       skipped := true
       files_done := files_done
       timing := some { start := some start } }, log, 0, t + 1⟩
  else
    let files_in := matcher volume_dirs step.match_in
    let rc := run_container step eng log max_attempts
    match rc.exception with
    | some e =>
      ⟨{ name := step.name
         log_file := some log_path
         timing := some { start := some start }
         exit_code := some rc.exit_code },
       rc.log ++ [errorMessage e], rc.invocations, t + 1⟩
    | none =>
      let files_out := matcher volume_dirs step.match_out
      let files_summary := matcher volume_dirs step.match_summary
      let finish := clock (t + 1)
      ⟨{ name := step.name
         image_id := rc.container
         exit_code := some rc.exit_code
         log_file := some log_path
         files_done := files_done
         files_in := files_in
         files_out := files_out
         files_summary := files_summary
         timing := some { start := some start
                          finish := some finish
                          duration := some ((finish : Int) - (start : Int)) } },
       rc.log, rc.invocations, t + 2⟩

/-- Python truthiness of `step_result.exit_code` (`None` and `0` are falsy). -/
def exitTruthy : Option Int → Bool
  | none => false
  | some n => n != 0

/-- `if step_names and not step.name in step_names:` — the filter applies
only when `step_names` is truthy (not `None` and nonempty). -/
def filteredOut (step_names : Option (List Value)) (name : Value) : Bool :=
  match step_names with
  | none => false
  | some l => !l.isEmpty && !(l.any (fun x => x = name))

def strOf : Value → String
  | .vstr s => s
  | _ => ""

/-- `Path(execution_path, f"{log_stem}.log")` with spaces replaced. -/
def logPath (execution_path : String) (name : Value) : String :=
  execution_path ++ "/" ++ (strOf name).replace " " "_" ++ ".log"

/-- The step loop of `run_pipeline`: returns the accumulated step results,
the per-attempted-step engine invocation counts, and the next clock index.
Appending a result whose `exit_code` is truthy stops the loop. -/
def run_pipeline_steps (execution_path : String) (force_rerun : Bool)
    (step_names : Option (List Value)) (matcher : List Value → Value → Matches)
    (eng : Step → Nat → EngineOutcome) (clock : Nat → Nat) :
    List Step → Nat → List StepResult → List (Value × Nat) →
    List StepResult × List (Value × Nat) × Nat
  | [], t, acc, trace => (acc, trace, t)
  | step :: rest, t, acc, trace =>
    if filteredOut step_names step.name then
      run_pipeline_steps execution_path force_rerun step_names matcher eng clock
        rest t acc trace
    else
      let log_path := logPath execution_path step.name
      let rs := run_step step log_path force_rerun matcher eng [] clock t
      let acc2 := acc ++ [rs.result]
      let trace2 := trace ++ [(step.name, rs.invocations)]
      if exitTruthy rs.result.exit_code then (acc2, trace2, rs.tNext)
      else
        run_pipeline_steps execution_path force_rerun step_names matcher eng clock
          rest rs.tNext acc2 trace2

/-- Result of `run_pipeline`: the `ExecutionRecord` plus, for each step that
was attempted (not filtered out), its engine invocation count. -/
structure RunPipelineResult where
  record : ExecutionRecord
  trace : List (Value × Nat)
deriving DecidableEq

/-- `run_pipeline` of `docker_runner.py`. -/
def run_pipeline (original : Pipeline) (execution_path : String)
    (args : List (String × String)) (force_rerun : Bool)
    (step_names : Option (List Value)) (matcher : List Value → Value → Matches)
    (eng : Step → Nat → EngineOutcome) (clock : Nat → Nat) : RunPipelineResult :=
  let start := clock 0
  let amended := amend original args
  let looped := run_pipeline_steps execution_path force_rerun step_names matcher
    eng clock amended.steps 1 [] []
  let finish := clock looped.2.2
  { record :=
      { original := original
        amended := amended
        timing := { start := some start
                    finish := some finish
                    duration := some ((finish : Int) - (start : Int)) }
        step_results := looped.1 }
    trace := looped.2.1 }

/-!
A heap embedding of the amendment, for the claim that amending never mutates
the original pipeline.  Python objects live in a store addressed by `Nat`;
`Step(...)` constructor calls, list/dict displays and `safe_substitute`
allocate fresh objects (`allocH`), scalars pass through by address
(`apply_args` returns `x` itself for them), and no operation ever writes to
an existing address — which is what the frame theorem below establishes.
The relative order of allocations inside one constructor call is immaterial
because the heap only grows.  Dict keys in this data model (volumes,
environment, args) are strings, so Python's `==` on keys is `heapKeyEq`.
-/

inductive HObj where
  | hnone : HObj
  | hbool (b : Bool) : HObj
  | hint (n : Int) : HObj
  | hstr (s : String) : HObj
  | hlist (elems : List Nat) : HObj
  | hdict (entries : List (Nat × Nat)) : HObj
  | hstep (name description image command volumes working_dir match_done
      match_in match_out match_summary environment gpus user network_mode
      mac_address : Nat) : HObj
  | hpipeline (version description args prototype steps : Nat) : HObj
deriving DecidableEq

abbrev Heap := List HObj

def allocH (h : Heap) (o : HObj) : Heap × Nat :=
  (h ++ [o], h.length)

/-- The second heap extends the first: nothing already allocated changed. -/
def HExt (h h' : Heap) : Prop :=
  ∃ t, h' = h ++ t

/-- Python truthiness of the object at an address. -/
def truthyH (h : Heap) (a : Nat) : Bool :=
  match h.get? a with
  | some .hnone => false
  | some (.hbool b) => b
  | some (.hint n) => n != 0
  | some (.hstr s) => s ≠ ""
  | some (.hlist es) => !es.isEmpty
  | some (.hdict es) => !es.isEmpty
  | some (.hstep _ _ _ _ _ _ _ _ _ _ _ _ _ _ _) => true
  | some (.hpipeline _ _ _ _ _) => true
  | none => false

def heapKeyEq (h : Heap) (a b : Nat) : Bool :=
  match h.get? a, h.get? b with
  | some (.hstr s), some (.hstr t) => s = t
  | _, _ => false

/-- `d[k] = v` on the heap: replace the value of an equal stored key, else
append the entry.  No allocation happens; keys and values are shared. -/
def heapDictInsert (h : Heap) (entries : List (Nat × Nat)) (k v : Nat) :
    List (Nat × Nat) :=
  if entries.any (fun p => heapKeyEq h p.1 k) then
    entries.map (fun p => if heapKeyEq h p.1 k then (p.1, v) else p)
  else entries ++ [(k, v)]

/-- Heap version of `apply_args`: strings, lists and dicts are rebuilt as
fresh objects, everything else is returned by address. -/
def applyArgsH (args : List (String × String)) : Nat → Heap → Nat → Heap × Nat
  | 0, h, a => (h, a)
  | fuel + 1, h, a =>
    match h.get? a with
    | some (.hstr s) => allocH h (.hstr (substitute args s))
    | some (.hlist es) =>
      let r := es.foldl (fun (acc : Heap × List Nat) e =>
        let r1 := applyArgsH args fuel acc.1 e
        (r1.1, acc.2 ++ [r1.2])) (h, [])
      allocH r.1 (.hlist r.2)
    | some (.hdict entries) =>
      let r := entries.foldl (fun (acc : Heap × List (Nat × Nat)) kv =>
        let rk := applyArgsH args fuel acc.1 kv.1
        let rv := applyArgsH args fuel rk.1 kv.2
        (rv.1, heapDictInsert rv.1 acc.2 rk.2 rv.2)) (h, [])
      allocH r.1 (.hdict r.2)
    | _ => (h, a)

/-- Heap version of `Step._with_args_applied`. -/
def hStepWithArgs (args : List (String × String)) (fuel : Nat) (h : Heap)
    (a : Nat) : Heap × Nat :=
  match h.get? a with
  | some (.hstep n d i c v w md mi mo ms e g u nm ma) =>
    let r1 := applyArgsH args fuel h n
    let r2 := applyArgsH args fuel r1.1 d
    let r3 := applyArgsH args fuel r2.1 i
    let r4 := applyArgsH args fuel r3.1 c
    let r5 := applyArgsH args fuel r4.1 v
    let r6 := applyArgsH args fuel r5.1 w
    let r7 := applyArgsH args fuel r6.1 md
    let r8 := applyArgsH args fuel r7.1 mi
    let r9 := applyArgsH args fuel r8.1 mo
    let r10 := applyArgsH args fuel r9.1 ms
    let r11 := applyArgsH args fuel r10.1 e
    let r12 := applyArgsH args fuel r11.1 g
    let r13 := applyArgsH args fuel r12.1 nm
    let r14 := applyArgsH args fuel r13.1 ma
    let r15 := applyArgsH args fuel r14.1 u
    allocH r15.1 (.hstep r1.2 r2.2 r3.2 r4.2 r5.2 r6.2 r7.2 r8.2 r9.2 r10.2
      r11.2 r12.2 r15.2 r13.2 r14.2)
  | _ => (h, a)

def readStrDict (h : Heap) (a : Nat) : List (String × String) :=
  match h.get? a with
  | some (.hdict entries) =>
    entries.filterMap (fun p =>
      match h.get? p.1, h.get? p.2 with
      | some (.hstr k), some (.hstr v) => some (k, v)
      | _, _ => none)
  | _ => []

/-- `Pipeline._combine_args` read off the heap. -/
def hCombineArgs (h : Heap) (argsAddr : Nat) (runtime : List (String × String)) :
    List (String × String) :=
  (readStrDict h argsAddr).map (fun kv => (kv.1, (lookupArg runtime kv.1).getD kv.2))

/-- Allocate the fresh `accepted_args` dict built by `_combine_args`. -/
def allocStrDict (h : Heap) (l : List (String × String)) : Heap × Nat :=
  let r := l.foldl (fun (acc : Heap × List (Nat × Nat)) kv =>
    let rk := allocH acc.1 (.hstr kv.1)
    let rv := allocH rk.1 (.hstr kv.2)
    (rv.1, acc.2 ++ [(rk.2, rv.2)])) (h, [])
  allocH r.1 (.hdict r.2)

/-- Heap version of `Pipeline._with_args_applied`. -/
def hPipelineWithArgs (runtime : List (String × String)) (fuel : Nat) (h : Heap)
    (a : Nat) : Heap × Nat :=
  match h.get? a with
  | some (.hpipeline ver desc argsA protoA stepsA) =>
    let combined := hCombineArgs h argsA runtime
    let ra := allocStrDict h combined
    let rp := if truthyH ra.1 protoA then hStepWithArgs combined fuel ra.1 protoA
      else (ra.1, protoA)
    let rs := match rp.1.get? stepsA with
      | some (.hlist ss) =>
        let rr := ss.foldl (fun (acc : Heap × List Nat) s =>
          let r1 := hStepWithArgs combined fuel acc.1 s
          (r1.1, acc.2 ++ [r1.2])) (rp.1, [])
        allocH rr.1 (.hlist rr.2)
      | _ => (rp.1, stepsA)
    allocH rs.1 (.hpipeline ver desc ra.2 rp.2 rs.2)
  | _ => (h, a)

def hDictEntries (h : Heap) (a : Nat) : List (Nat × Nat) :=
  match h.get? a with
  | some (.hdict entries) => entries
  | _ => []

/-- `{**p, **s}` on the heap: one fresh dict object, entries shared. -/
def hMergeDicts (h : Heap) (pA sA : Nat) : Heap × Nat :=
  let merged := (hDictEntries h pA ++ hDictEntries h sA).foldl
    (fun acc p => heapDictInsert h acc p.1 p.2) []
  allocH h (.hdict merged)

/-- Heap version of `Step._with_prototype_applied`.  `x or y` evaluates to
one of the two existing objects; only the merged dicts and the new `Step`
are allocated. -/
def hStepWithPrototype (h : Heap) (selfA protoA : Nat) : Heap × Nat :=
  if !truthyH h protoA then (h, selfA)
  else
    match h.get? selfA, h.get? protoA with
    | some (.hstep n d i c v w md mi mo ms e g u nm ma),
      some (.hstep pn pd pi pc pv pw pmd pmi pmo pms pe pg pu pnm pma) =>
      let rv := hMergeDicts h pv v
      let re := hMergeDicts rv.1 pe e
      let pick := fun (x px : Nat) => if truthyH h x then x else px
      allocH re.1 (.hstep (pick n pn) (pick d pd) (pick i pi) (pick c pc) rv.2
        (pick w pw) (pick md pmd) (pick mi pmi) (pick mo pmo) (pick ms pms)
        re.2 (pick g pg) (pick u pu) (pick nm pnm) (pick ma pma))
    | _, _ => (h, selfA)

/-- Heap version of `Pipeline._with_prototype_applied`. -/
def hPipelineWithPrototype (h : Heap) (a : Nat) : Heap × Nat :=
  match h.get? a with
  | some (.hpipeline ver desc argsA protoA stepsA) =>
    let rs := match h.get? stepsA with
      | some (.hlist ss) =>
        let rr := ss.foldl (fun (acc : Heap × List Nat) s =>
          let r1 := hStepWithPrototype acc.1 s protoA
          (r1.1, acc.2 ++ [r1.2])) (h, [])
        allocH rr.1 (.hlist rr.2)
      | _ => (h, stepsA)
    allocH rs.1 (.hpipeline ver desc argsA protoA rs.2)
  | _ => (h, a)

/-- The amendment on the heap, as performed by `run_pipeline`. -/
def hAmend (runtime : List (String × String)) (fuel : Nat) (h : Heap) (a : Nat) :
    Heap × Nat :=
  let r1 := hPipelineWithArgs runtime fuel h a
  hPipelineWithPrototype r1.1 r1.2

/-!
Concrete instances used by the witnesses and counterexamples below.
-/

def stepC1 : Step := { name := .vstr "c1", gpus := .vbool false }

def protoC1 : Step := { gpus := .vbool true }

def stepOne : Step := { name := .vstr "one", image := .vstr "ubuntu" }

def stepTwo : Step := { name := .vstr "two", image := .vstr "ubuntu" }

def stepThree : Step := { name := .vstr "three", image := .vstr "ubuntu" }

def pipelineC2 : Pipeline := { steps := [stepOne, stepTwo, stepThree] }

def matcherEmpty : List Value → Value → Matches := fun _ _ => []

/-- Engine where step "two" completes with a nonzero exit status and every
other step completes with exit status 0. -/
def engC2 : Step → Nat → EngineOutcome := fun step _ =>
  if step.name = .vstr "two" then .success ["step two log\n"] 13 "sha256:img2"
  else .success ["ok\n"] 0 "sha256:img1"

def stepC3 : Step := { name := .vstr "flaky step", image := .vstr "ubuntu" }

/-- Engine raising a backend/server error on attempts 0 and 1 and succeeding
with exit status 0 on attempt 2. -/
def engC3 : Step → Nat → EngineOutcome := fun _ attempts =>
  if attempts < 2 then .serverError "backend unavailable"
  else .success ["hello\n"] 0 "sha256:abc"

def isRetryMarkerLine (s : String) : Bool :=
  s.startsWith "Container attempts/retries"

def engClientErr : Step → Nat → EngineOutcome := fun _ _ =>
  .clientError "invalid reference format"

def stepC5 : Step :=
  { name := .vstr "done step"
    image := .vstr "ubuntu"
    volumes := .vdict (.cons (.vstr "/host/out") (.vstr "/out") .nil)
    match_done := .vlist (.cons (.vstr "result.txt") .nil) }

/-- Matcher that finds one done file for `stepC5`'s patterns and nothing for
any other query. -/
def matcherC5 : List Value → Value → Matches := fun _ patterns =>
  if patterns = .vlist (.cons (.vstr "result.txt") .nil) then
    [("/host/out", [("result.txt", "sha256:2222")])]
  else []

def argsC7 : List (String × String) := [("a", "b")]

def specC7 : Value := .vstr "$$a"

def pipelineC8 : Pipeline := { steps := [{ name := .vstr "a$$b" }] }

def stepC9 : Step :=
  { name := .vstr "s"
    image := .vstr "ubuntu"
    volumes := .vdict (.cons (.vstr "/host/data") (.vstr "/data") .nil)
    match_in := .vlist (.cons (.vstr "*.txt") .nil) }

/-- Matcher that finds one input file for `stepC9.match_in` and nothing for
any other query (in particular, no done files). -/
def matcherC9 : List Value → Value → Matches := fun _ patterns =>
  if patterns = .vlist (.cons (.vstr "*.txt") .nil) then
    [("/host/data", [("in.txt", "sha256:1111")])]
  else []

/-- A four-object heap holding a pipeline at address 3: its version and
description and prototype share the `None` at address 0, its args dict is at
address 1 and its (empty) steps list at address 2. -/
def heapC6 : Heap :=
  [.hnone, .hdict [], .hlist [], .hpipeline 0 0 1 0 2]

/-- `P` holds of every string in every field of the step. -/
def stepAllStr (P : String → Bool) (s : Step) : Bool :=
  allStrV P s.name && allStrV P s.description && allStrV P s.image &&
  allStrV P s.command && allStrV P s.volumes && allStrV P s.working_dir &&
  allStrV P s.match_done && allStrV P s.match_in && allStrV P s.match_out &&
  allStrV P s.match_summary && allStrV P s.environment && allStrV P s.gpus &&
  allStrV P s.user && allStrV P s.network_mode && allStrV P s.mac_address

/-- Every dict in every field of the step has pairwise distinct keys. -/
def stepWfKeys (s : Step) : Bool :=
  wfKeysV s.name && wfKeysV s.description && wfKeysV s.image &&
  wfKeysV s.command && wfKeysV s.volumes && wfKeysV s.working_dir &&
  wfKeysV s.match_done && wfKeysV s.match_in && wfKeysV s.match_out &&
  wfKeysV s.match_summary && wfKeysV s.environment && wfKeysV s.gpus &&
  wfKeysV s.user && wfKeysV s.network_mode && wfKeysV s.mac_address

/-!
Template Resolver lemmas

`safe_substitute` is the identity on strings without `$`, and — with an empty
mapping — on strings without the `$$` escape.
-/

theorem substAux_noDollar (args : List (String × String)) :
    ∀ fuel cs, cs.all (fun c => c ≠ '$') = true → substAux args fuel cs = cs := by
  intro fuel
  induction fuel with
  | zero => intro cs _; rfl
  | succ fuel ih =>
    intro cs h
    cases cs with
    | nil => rfl
    | cons c rest =>
      simp only [List.all_cons, Bool.and_eq_true, decide_eq_true_eq] at h
      simp only [substAux, if_neg h.1, ih rest h.2]

theorem substitute_noDollar (args : List (String × String)) (s : String)
    (h : noDollarStr s = true) : substitute args s = s := by
  unfold substitute
  rw [substAux_noDollar args _ _ h]

theorem noDDChars_tail (c : Char) (cs : List Char)
    (h : noDDChars (c :: cs) = true) : noDDChars cs = true := by
  cases cs with
  | nil => rfl
  | cons d rest =>
    simp only [noDDChars, Bool.and_eq_true] at h
    exact h.2

theorem noDDChars_dropWhile (p : Char → Bool) :
    ∀ cs, noDDChars cs = true → noDDChars (cs.dropWhile p) = true := by
  intro cs
  induction cs with
  | nil => intro _; rfl
  | cons c rest ih =>
    intro h
    rw [List.dropWhile_cons]
    by_cases hp : p c = true
    · simp only [hp, if_true]
      exact ih (noDDChars_tail c rest h)
    · simp only [hp, if_false]
      exact h

theorem parseBraced_split (cs idf rem : List Char)
    (h : parseBraced cs = some (idf, rem)) : cs = idf ++ '}' :: rem := by
  have hsplit := List.takeWhile_append_dropWhile isIdentCont cs
  unfold parseBraced at h
  split at h
  · rename_i cchar idtail rem2 htw hdw
    split at h
    · rw [Option.some.injEq, Prod.mk.injEq] at h
      obtain ⟨h1, h2⟩ := h
      subst h1
      subst h2
      rw [htw, hdw] at hsplit
      exact hsplit.symm
    · exact absurd h (by simp)
  · exact absurd h (by simp)

theorem lookupArg_nil (key : String) : lookupArg [] key = none := rfl

theorem noDDChars_append_right :
    ∀ a b : List Char, noDDChars (a ++ b) = true → noDDChars b = true := by
  intro a
  induction a with
  | nil => intro b h; exact h
  | cons x a' ih =>
    intro b h
    exact ih b (noDDChars_tail x (a' ++ b) h)

theorem substAux_empty_noDD :
    ∀ fuel cs, noDDChars cs = true → substAux [] fuel cs = cs := by
  intro fuel
  induction fuel with
  | zero => intro cs _; rfl
  | succ fuel ih =>
    intro cs h
    cases cs with
    | nil => rfl
    | cons c rest =>
      by_cases hc : c = '$'
      · subst hc
        cases rest with
        | nil => rfl
        | cons d rest2 =>
          simp only [noDDChars, Bool.and_eq_true, Bool.not_eq_true',
            Bool.and_eq_false_iff, decide_eq_true_eq, decide_eq_false_iff_not] at h
          have hd : d ≠ '$' := by
            rcases h.1 with h1 | h1
            · exact absurd trivial h1
            · exact h1
          have hrest : noDDChars (d :: rest2) = true := h.2
          simp only [substAux, if_pos rfl, if_neg hd]
          by_cases hid : isIdentStart d = true
          · rw [if_pos hid]
            have hdrop : noDDChars ((d :: rest2).dropWhile isIdentCont) = true :=
              noDDChars_dropWhile isIdentCont (d :: rest2) hrest
            simp only [lookupArg_nil]
            rw [ih _ hdrop]
            exact congrArg (fun l => '$' :: l)
              (List.takeWhile_append_dropWhile isIdentCont (d :: rest2))
          · rw [if_neg hid]
            by_cases hbr : d = '{'
            · rw [if_pos hbr]
              subst hbr
              rcases hpb : parseBraced rest2 with _ | ⟨idf, rem⟩
              · simp only [lookupArg_nil]
                have : noDDChars ('{' :: rest2) = true := hrest
                rw [ih _ this]
                simp
              · simp only [lookupArg_nil]
                have hsplit := parseBraced_split rest2 idf rem hpb
                have hrem : noDDChars rem = true := by
                  have h2 : noDDChars rest2 = true := noDDChars_tail _ _ hrest
                  rw [hsplit] at h2
                  exact noDDChars_tail _ _ (noDDChars_append_right idf ('}' :: rem) h2)
                rw [ih _ hrem, hsplit]
                simp
            · rw [if_neg hbr]
              rw [ih _ hrest]
              simp
      · simp only [substAux, if_neg hc]
        rw [ih _ (noDDChars_tail c rest h)]

theorem substitute_empty_noDD (s : String) (h : noDDStr s = true) :
    substitute [] s = s := by
  unfold substitute
  rw [substAux_empty_noDD _ _ h]

/-!
Dict assignment lemmas

`pyDictInsert` on a fresh key appends; on dicts with pairwise distinct keys it
preserves distinctness, which is what makes rebuilding a dict entry by entry
the identity.
-/

theorem append_nilD : ∀ d : VDict, VDict.append d .nil = d
  | .nil => rfl
  | .cons k v t => by simp only [VDict.append, append_nilD t]

theorem append_consD : ∀ (acc : VDict) (k v : Value) (t : VDict),
    VDict.append (VDict.append acc (.cons k v .nil)) t =
      VDict.append acc (.cons k v t)
  | .nil, _, _, _ => rfl
  | .cons k' v' t', k, v, t => by
    simp only [VDict.append, append_consD t' k v t]

theorem keyMemD_append : ∀ (a b : VDict) (k : Value),
    keyMemD (VDict.append a b) k = (keyMemD a k || keyMemD b k)
  | .nil, _, _ => rfl
  | .cons k' v' t, b, k => by
    simp only [VDict.append, keyMemD, keyMemD_append t b k, Bool.or_assoc]

theorem pyDictInsert_fresh (acc : VDict) (k v : Value)
    (h : keyMemD acc k = false) :
    pyDictInsert acc k v = VDict.append acc (.cons k v .nil) := by
  simp only [pyDictInsert, h, Bool.false_eq_true, if_false]

theorem keysFreshFromD_nil : ∀ d : VDict, keysFreshFromD d .nil = true
  | .nil => rfl
  | .cons k v t => by
    simp only [keysFreshFromD, keyMemD, keysFreshFromD_nil t, Bool.not_false,
      Bool.and_self]

theorem keysFreshFromD_snoc : ∀ (t acc : VDict) (k v : Value),
    keyMemD t k = false → keysFreshFromD t acc = true →
    keysFreshFromD t (VDict.append acc (.cons k v .nil)) = true
  | .nil, _, _, _, _, _ => rfl
  | .cons k' v' t', acc, k, v, hne, h => by
    simp only [keyMemD, Bool.or_eq_false_iff, decide_eq_false_iff_not] at hne
    simp only [keysFreshFromD, Bool.and_eq_true, Bool.not_eq_true'] at h
    have hsym : ¬(k = k') := fun hk => hne.1 hk.symm
    have hrec := keysFreshFromD_snoc t' acc k v hne.2 h.2
    simp only [keysFreshFromD, keyMemD_append, keyMemD, Bool.and_eq_true,
      Bool.not_eq_true', Bool.or_eq_false_iff, decide_eq_false_iff_not]
    tauto

theorem keyMemD_replace : ∀ (acc : VDict) (k v x : Value),
    keyMemD (replaceKeyD acc k v) x = keyMemD acc x
  | .nil, _, _, _ => rfl
  | .cons k' v' t, k, v, x => by
    by_cases hk : k' = k
    · simp only [replaceKeyD, if_pos hk, keyMemD]
    · simp only [replaceKeyD, if_neg hk, keyMemD, keyMemD_replace t k v x]

theorem keysNodupD_replace : ∀ (acc : VDict) (k v : Value),
    keysNodupD (replaceKeyD acc k v) = keysNodupD acc
  | .nil, _, _ => rfl
  | .cons k' v' t, k, v => by
    by_cases hk : k' = k
    · simp only [replaceKeyD, if_pos hk, keysNodupD]
    · simp only [replaceKeyD, if_neg hk, keysNodupD, keyMemD_replace,
        keysNodupD_replace t k v]

theorem wfKeysD_replace : ∀ (acc : VDict) (k v : Value),
    wfKeysD acc = true → wfKeysV v = true →
    wfKeysD (replaceKeyD acc k v) = true
  | .nil, _, _, _, _ => rfl
  | .cons k' v' t, k, v, hacc, hv => by
    simp only [wfKeysD, Bool.and_eq_true] at hacc
    obtain ⟨⟨ha1, ha2⟩, ha3⟩ := hacc
    by_cases hk : k' = k
    · simp only [replaceKeyD, if_pos hk, wfKeysD, Bool.and_eq_true]
      exact ⟨⟨ha1, hv⟩, ha3⟩
    · simp only [replaceKeyD, if_neg hk, wfKeysD, Bool.and_eq_true]
      exact ⟨⟨ha1, ha2⟩, wfKeysD_replace t k v ha3 hv⟩

theorem keysNodupD_append_fresh : ∀ (acc : VDict) (k v : Value),
    keysNodupD acc = true → keyMemD acc k = false →
    keysNodupD (VDict.append acc (.cons k v .nil)) = true
  | .nil, _, _, _, _ => rfl
  | .cons k' v' t, k, v, hacc, hk => by
    simp only [keysNodupD, Bool.and_eq_true, Bool.not_eq_true'] at hacc
    simp only [keyMemD, Bool.or_eq_false_iff, decide_eq_false_iff_not] at hk
    have hsym : ¬(k = k') := fun he => hk.1 he.symm
    have hrec := keysNodupD_append_fresh t k v hacc.2 hk.2
    simp only [VDict.append, keysNodupD, keyMemD_append, keyMemD,
      Bool.and_eq_true, Bool.not_eq_true', Bool.or_eq_false_iff,
      decide_eq_false_iff_not]
    tauto

theorem wfKeysD_append : ∀ (acc : VDict) (k v : Value),
    wfKeysD acc = true → wfKeysV k = true → wfKeysV v = true →
    wfKeysD (VDict.append acc (.cons k v .nil)) = true
  | .nil, k, v, _, hk, hv => by
    simpa [VDict.append, wfKeysD] using ⟨hk, hv⟩
  | .cons k' v' t, k, v, hacc, hk, hv => by
    simp only [wfKeysD, Bool.and_eq_true] at hacc
    obtain ⟨⟨ha1, ha2⟩, ha3⟩ := hacc
    simp only [VDict.append, wfKeysD, Bool.and_eq_true]
    exact ⟨⟨ha1, ha2⟩, wfKeysD_append t k v ha3 hk hv⟩

theorem keysNodupD_insert (acc : VDict) (k v : Value)
    (hacc : keysNodupD acc = true) :
    keysNodupD (pyDictInsert acc k v) = true := by
  by_cases hk : keyMemD acc k = true
  · simp only [pyDictInsert, hk, if_true, keysNodupD_replace]
    exact hacc
  · rw [pyDictInsert_fresh acc k v (Bool.not_eq_true _ ▸ hk)]
    exact keysNodupD_append_fresh acc k v hacc (Bool.not_eq_true _ ▸ hk)

theorem wfKeysD_insert (acc : VDict) (k v : Value)
    (hacc : wfKeysD acc = true) (hk : wfKeysV k = true) (hv : wfKeysV v = true) :
    wfKeysD (pyDictInsert acc k v) = true := by
  by_cases hmem : keyMemD acc k = true
  · simp only [pyDictInsert, hmem, if_true]
    exact wfKeysD_replace acc k v hacc hv
  · rw [pyDictInsert_fresh acc k v (Bool.not_eq_true _ ▸ hmem)]
    exact wfKeysD_append acc k v hacc hk hv

/-!
Fixpoint of `apply_args`

When all strings of a value are left unchanged by `substitute` and its dicts
have pairwise distinct keys, `apply_args` is the identity on it; and the
output of `apply_args` always has pairwise distinct dict keys.
-/

mutual
theorem applyArgsFixV (args : List (String × String)) (P : String → Bool)
    (hP : ∀ s, P s = true → substitute args s = s) :
    ∀ v : Value, allStrV P v = true → wfKeysV v = true → apply_args args v = v
  | .vnone, _, _ => rfl
  | .vbool _, _, _ => rfl
  | .vint _, _, _ => rfl
  | .vstr s, h, _ => by
    have hs := hP s (by simpa [allStrV] using h)
    simp only [apply_args, hs]
  | .vlist l, h, hw => by
    have hl := applyArgsFixL args P hP l (by simpa [allStrV] using h)
      (by simpa [wfKeysV] using hw)
    simp only [apply_args, hl]
  | .vdict d, h, hw => by
    have hwd : keysNodupD d = true ∧ wfKeysD d = true := by
      simpa [wfKeysV, Bool.and_eq_true] using hw
    have hd := applyArgsFixD args P hP d .nil (by simpa [allStrV] using h)
      hwd.1 hwd.2 (keysFreshFromD_nil d)
    simp only [apply_args, hd, VDict.append]
theorem applyArgsFixL (args : List (String × String)) (P : String → Bool)
    (hP : ∀ s, P s = true → substitute args s = s) :
    ∀ l : VList, allStrL P l = true → wfKeysL l = true → applyArgsList args l = l
  | .nil, _, _ => rfl
  | .cons x t, h, hw => by
    obtain ⟨h1, h2⟩ : allStrV P x = true ∧ allStrL P t = true := by
      simpa [allStrL, Bool.and_eq_true] using h
    obtain ⟨hw1, hw2⟩ : wfKeysV x = true ∧ wfKeysL t = true := by
      simpa [wfKeysL, Bool.and_eq_true] using hw
    simp only [applyArgsList, applyArgsFixV args P hP x h1 hw1,
      applyArgsFixL args P hP t h2 hw2]
theorem applyArgsFixD (args : List (String × String)) (P : String → Bool)
    (hP : ∀ s, P s = true → substitute args s = s) :
    ∀ (d acc : VDict), allStrD P d = true → keysNodupD d = true →
      wfKeysD d = true → keysFreshFromD d acc = true →
      applyArgsDict args d acc = VDict.append acc d
  | .nil, acc, _, _, _, _ => (append_nilD acc).symm
  | .cons k v t, acc, h, hn, hw, hf => by
    obtain ⟨⟨h1, h2⟩, h3⟩ : (allStrV P k = true ∧ allStrV P v = true) ∧
        allStrD P t = true := by
      simpa [allStrD, Bool.and_eq_true] using h
    obtain ⟨hn1, hn2⟩ : keyMemD t k = false ∧ keysNodupD t = true := by
      simpa [keysNodupD, Bool.and_eq_true, Bool.not_eq_true'] using hn
    obtain ⟨⟨hw1, hw2⟩, hw3⟩ : (wfKeysV k = true ∧ wfKeysV v = true) ∧
        wfKeysD t = true := by
      simpa [wfKeysD, Bool.and_eq_true] using hw
    obtain ⟨hf1, hf2⟩ : keyMemD acc k = false ∧ keysFreshFromD t acc = true := by
      simpa [keysFreshFromD, Bool.and_eq_true, Bool.not_eq_true'] using hf
    have hk := applyArgsFixV args P hP k h1 hw1
    have hv := applyArgsFixV args P hP v h2 hw2
    have ht := applyArgsFixD args P hP t (VDict.append acc (.cons k v .nil)) h3
      hn2 hw3 (keysFreshFromD_snoc t acc k v hn1 hf2)
    simp only [applyArgsDict, hk, hv, pyDictInsert_fresh acc k v hf1, ht,
      append_consD]
end

mutual
theorem wfKeysV_apply (args : List (String × String)) :
    ∀ v : Value, wfKeysV (apply_args args v) = true
  | .vnone => rfl
  | .vbool _ => rfl
  | .vint _ => rfl
  | .vstr _ => rfl
  | .vlist l => by simpa [apply_args, wfKeysV] using wfKeysL_apply args l
  | .vdict d => by
    have := wfKeysDict_apply args d .nil rfl rfl
    simpa [apply_args, wfKeysV, Bool.and_eq_true] using this
theorem wfKeysL_apply (args : List (String × String)) :
    ∀ l : VList, wfKeysL (applyArgsList args l) = true
  | .nil => rfl
  | .cons x t => by
    simpa [applyArgsList, wfKeysL, Bool.and_eq_true] using
      ⟨wfKeysV_apply args x, wfKeysL_apply args t⟩
theorem wfKeysDict_apply (args : List (String × String)) :
    ∀ (d acc : VDict), keysNodupD acc = true → wfKeysD acc = true →
      keysNodupD (applyArgsDict args d acc) = true ∧
        wfKeysD (applyArgsDict args d acc) = true
  | .nil, _, hn, hw => ⟨hn, hw⟩
  | .cons k v t, acc, hn, hw =>
    wfKeysDict_apply args t
      (pyDictInsert acc (apply_args args k) (apply_args args v))
      (keysNodupD_insert acc (apply_args args k) (apply_args args v) hn)
      (wfKeysD_insert acc (apply_args args k) (apply_args args v) hw
        (wfKeysV_apply args k) (wfKeysV_apply args v))
end

/-- With no declared args the combined args are empty, and applying empty
args is the identity on a step without `$$` escapes. -/
theorem stepWithArgs_empty_id (s : Step) (h : stepAllStr noDDStr s = true)
    (hw : stepWfKeys s = true) : s._with_args_applied [] = s := by
  have fix : ∀ v : Value, allStrV noDDStr v = true → wfKeysV v = true →
      apply_args [] v = v :=
    applyArgsFixV [] noDDStr (fun str hs => substitute_empty_noDD str hs)
  unfold stepAllStr at h
  unfold stepWfKeys at hw
  simp only [Bool.and_eq_true] at h hw
  obtain ⟨⟨⟨⟨⟨⟨⟨⟨⟨⟨⟨⟨⟨⟨h1, h2⟩, h3⟩, h4⟩, h5⟩, h6⟩, h7⟩, h8⟩, h9⟩, h10⟩,
    h11⟩, h12⟩, h13⟩, h14⟩, h15⟩ := h
  obtain ⟨⟨⟨⟨⟨⟨⟨⟨⟨⟨⟨⟨⟨⟨w1, w2⟩, w3⟩, w4⟩, w5⟩, w6⟩, w7⟩, w8⟩, w9⟩, w10⟩,
    w11⟩, w12⟩, w13⟩, w14⟩, w15⟩ := hw
  obtain ⟨n, d, i, c, v, w, md, mi, mo, ms, e, g, u, nm, ma⟩ := s
  simp only [Step._with_args_applied]
  simp only at h1 h2 h3 h4 h5 h6 h7 h8 h9 h10 h11 h12 h13 h14 h15
  simp only at w1 w2 w3 w4 w5 w6 w7 w8 w9 w10 w11 w12 w13 w14 w15
  rw [fix _ h1 w1, fix _ h2 w2, fix _ h3 w3, fix _ h4 w4, fix _ h5 w5,
    fix _ h6 w6, fix _ h7 w7, fix _ h8 w8, fix _ h9 w9, fix _ h10 w10,
    fix _ h11 w11, fix _ h12 w12, fix _ h13 w13, fix _ h14 w14, fix _ h15 w15]

/-!
Step loop invariant

Every step result the loop appends, other than possibly the last one, has a
falsy exit code: the loop breaks right after appending a truthy one.
-/

theorem run_pipeline_steps_falsy (execution_path : String) (force_rerun : Bool)
    (step_names : Option (List Value)) (matcher : List Value → Value → Matches)
    (eng : Step → Nat → EngineOutcome) (clock : Nat → Nat) :
    ∀ (steps : List Step) (t : Nat) (acc : List StepResult)
      (trace : List (Value × Nat)),
      (∀ r ∈ acc, exitTruthy r.exit_code = false) →
      ∀ (i : Nat) (r : StepResult),
        (run_pipeline_steps execution_path force_rerun step_names matcher eng
          clock steps t acc trace).1.get? i = some r →
        i + 1 < (run_pipeline_steps execution_path force_rerun step_names
          matcher eng clock steps t acc trace).1.length →
        exitTruthy r.exit_code = false := by
  intro steps
  induction steps with
  | nil =>
    intro t acc trace hacc i r hget _
    simp only [run_pipeline_steps] at hget
    exact hacc r (List.get?_mem hget)
  | cons step rest ih =>
    intro t acc trace hacc i r hget hlen
    by_cases hfo : filteredOut step_names step.name = true
    · simp only [run_pipeline_steps, hfo, if_true] at hget hlen
      exact ih t acc trace hacc i r hget hlen
    · simp only [run_pipeline_steps, hfo, Bool.false_eq_true,
        if_false] at hget hlen
      by_cases hex : exitTruthy (run_step step
          (logPath execution_path step.name) force_rerun matcher eng [] clock
          t 3).result.exit_code = true
      · simp only [hex, if_true] at hget hlen
        rw [List.length_append, List.length_singleton] at hlen
        have hi : i < acc.length := by omega
        rw [List.get?_append hi] at hget
        exact hacc r (List.get?_mem hget)
      · simp only [hex, Bool.false_eq_true, if_false] at hget hlen
        refine ih _ _ _ ?_ i r hget hlen
        intro r' hr'
        rcases List.mem_append.mp hr' with hmem | hmem
        · exact hacc r' hmem
        · rw [List.mem_singleton.mp hmem]
          exact Bool.not_eq_true _ ▸ hex

/-- The loop appends one trace entry (attempted step, engine invocation
count) per appended step result, in lockstep. -/
theorem run_pipeline_steps_trace_length (execution_path : String)
    (force_rerun : Bool) (step_names : Option (List Value))
    (matcher : List Value → Value → Matches) (eng : Step → Nat → EngineOutcome)
    (clock : Nat → Nat) :
    ∀ (steps : List Step) (t : Nat) (acc : List StepResult)
      (trace : List (Value × Nat)),
      trace.length = acc.length →
      (run_pipeline_steps execution_path force_rerun step_names matcher eng
        clock steps t acc trace).2.1.length =
      (run_pipeline_steps execution_path force_rerun step_names matcher eng
        clock steps t acc trace).1.length := by
  intro steps
  induction steps with
  | nil =>
    intro t acc trace h
    simpa [run_pipeline_steps] using h
  | cons step rest ih =>
    intro t acc trace h
    by_cases hfo : filteredOut step_names step.name = true
    · simp only [run_pipeline_steps, hfo, if_true]
      exact ih t acc trace h
    · simp only [run_pipeline_steps, hfo, Bool.false_eq_true, if_false]
      by_cases hex : exitTruthy (run_step step
          (logPath execution_path step.name) force_rerun matcher eng [] clock
          t 3).result.exit_code = true
      · simp only [hex, if_true]
        simp [h]
      · simp only [hex, Bool.false_eq_true, if_false]
        exact ih _ _ _ (by simp [h])

/-!
Heap frame lemmas

Every operation of the heap embedding only allocates: the resulting heap is
an extension of the input heap, so every address allocated before the
amendment still holds exactly the object it held before.
-/

theorem hext_refl (h : Heap) : HExt h h := ⟨[], by simp⟩

theorem hext_trans {h1 h2 h3 : Heap} (a : HExt h1 h2) (b : HExt h2 h3) :
    HExt h1 h3 := by
  obtain ⟨t1, rfl⟩ := a
  obtain ⟨t2, rfl⟩ := b
  exact ⟨t1 ++ t2, by simp⟩

theorem hext_alloc (h : Heap) (o : HObj) : HExt h (allocH h o).1 := ⟨[o], rfl⟩

theorem hext_length {h h' : Heap} (he : HExt h h') : h.length ≤ h'.length := by
  obtain ⟨t, rfl⟩ := he
  simp

theorem hext_get {h h' : Heap} (he : HExt h h') {i : Nat} (hi : i < h.length) :
    h'.get? i = h.get? i := by
  obtain ⟨t, rfl⟩ := he
  exact List.get?_append hi

theorem allocH_get (h : Heap) (o : HObj) :
    (allocH h o).1.get? (allocH h o).2 = some o :=
  List.get?_concat_length h o

theorem hext_foldl {α β : Type} (f : Heap × List β → α → Heap × List β)
    (hf : ∀ s a, HExt s.1 (f s a).1) :
    ∀ (l : List α) (s : Heap × List β), HExt s.1 (l.foldl f s).1 := by
  intro l
  induction l with
  | nil => intro s; exact hext_refl _
  | cons a rest ih =>
    intro s
    exact hext_trans (hf s a) (ih (f s a))

theorem applyArgsH_ext (args : List (String × String)) :
    ∀ (fuel : Nat) (h : Heap) (a : Nat), HExt h (applyArgsH args fuel h a).1 := by
  intro fuel
  induction fuel with
  | zero => intro h a; exact hext_refl h
  | succ fuel ih =>
    intro h a
    unfold applyArgsH
    split
    · exact hext_alloc _ _
    · refine hext_trans ?_ (hext_alloc _ _)
      exact hext_foldl _ (fun s e => ih s.1 e) _ (h, [])
    · refine hext_trans ?_ (hext_alloc _ _)
      refine hext_foldl _ (fun s kv => ?_) _ (h, [])
      exact hext_trans (ih s.1 kv.1) (ih _ kv.2)
    · exact hext_refl h

theorem hStepWithArgs_ext (args : List (String × String)) (fuel : Nat)
    (h : Heap) (a : Nat) : HExt h (hStepWithArgs args fuel h a).1 := by
  unfold hStepWithArgs
  split
  · refine hext_trans ?_ (hext_alloc _ _)
    iterate 15 refine hext_trans ?_ (applyArgsH_ext _ _ _ _)
    exact hext_refl h
  · exact hext_refl h

theorem allocStrDict_ext (h : Heap) (l : List (String × String)) :
    HExt h (allocStrDict h l).1 := by
  unfold allocStrDict
  refine hext_trans ?_ (hext_alloc _ _)
  refine hext_foldl _ (fun s kv => ?_) _ (h, [])
  exact hext_trans (hext_alloc _ _) (hext_alloc _ _)

theorem hPipelineWithArgs_ext (runtime : List (String × String)) (fuel : Nat)
    (h : Heap) (a : Nat) : HExt h (hPipelineWithArgs runtime fuel h a).1 := by
  unfold hPipelineWithArgs
  split
  · rename_i ver desc argsA protoA stepsA heq
    refine hext_trans ?_ (hext_alloc _ _)
    split
    · refine hext_trans ?_ (hext_alloc _ _)
      refine hext_trans ?_
        (hext_foldl _ (fun s e => hStepWithArgs_ext _ _ _ _) _ _)
      split
      · exact hext_trans (allocStrDict_ext _ _) (hStepWithArgs_ext _ _ _ _)
      · exact allocStrDict_ext _ _
    · split
      · exact hext_trans (allocStrDict_ext _ _) (hStepWithArgs_ext _ _ _ _)
      · exact allocStrDict_ext _ _
  · exact hext_refl h

theorem hMergeDicts_ext (h : Heap) (pA sA : Nat) :
    HExt h (hMergeDicts h pA sA).1 :=
  hext_alloc _ _

theorem hStepWithPrototype_ext (h : Heap) (selfA protoA : Nat) :
    HExt h (hStepWithPrototype h selfA protoA).1 := by
  unfold hStepWithPrototype
  split
  · exact hext_refl h
  · split
    · refine hext_trans ?_ (hext_alloc _ _)
      exact hext_trans (hMergeDicts_ext _ _ _) (hMergeDicts_ext _ _ _)
    · exact hext_refl h

theorem hPipelineWithPrototype_ext (h : Heap) (a : Nat) :
    HExt h (hPipelineWithPrototype h a).1 := by
  unfold hPipelineWithPrototype
  split
  · refine hext_trans ?_ (hext_alloc _ _)
    split
    · refine hext_trans ?_ (hext_alloc _ _)
      refine hext_foldl _ (fun s e => ?_) _ _
      exact hStepWithPrototype_ext _ _ _
    · exact hext_refl h
  · exact hext_refl h

theorem hAmend_ext (runtime : List (String × String)) (fuel : Nat) (h : Heap)
    (a : Nat) : HExt h (hAmend runtime fuel h a).1 :=
  hext_trans (hPipelineWithArgs_ext runtime fuel h a)
    (hPipelineWithPrototype_ext _ _)

theorem hPipelineWithArgs_shape (runtime : List (String × String)) (fuel : Nat)
    (h : Heap) (a : Nat) (ver desc argsA protoA stepsA : Nat)
    (hp : h.get? a = some (.hpipeline ver desc argsA protoA stepsA)) :
    h.length ≤ (hPipelineWithArgs runtime fuel h a).2 ∧
    (∃ v2 d2 a2 p2 s2,
      (hPipelineWithArgs runtime fuel h a).1.get?
        (hPipelineWithArgs runtime fuel h a).2 =
          some (.hpipeline v2 d2 a2 p2 s2)) := by
  unfold hPipelineWithArgs
  simp only [hp]
  constructor
  · refine hext_length (?_ : HExt h _)
    split
    · refine hext_trans ?_ (hext_alloc _ _)
      refine hext_trans ?_
        (hext_foldl _ (fun s e => hStepWithArgs_ext _ _ _ _) _ _)
      split
      · exact hext_trans (allocStrDict_ext _ _) (hStepWithArgs_ext _ _ _ _)
      · exact allocStrDict_ext _ _
    · split
      · exact hext_trans (allocStrDict_ext _ _) (hStepWithArgs_ext _ _ _ _)
      · exact allocStrDict_ext _ _
  · exact ⟨_, _, _, _, _, allocH_get _ _⟩

theorem hPipelineWithPrototype_shape (h : Heap) (a : Nat)
    (ver desc argsA protoA stepsA : Nat)
    (hp : h.get? a = some (.hpipeline ver desc argsA protoA stepsA)) :
    h.length ≤ (hPipelineWithPrototype h a).2 := by
  unfold hPipelineWithPrototype
  simp only [hp]
  refine hext_length (?_ : HExt h _)
  split
  · refine hext_trans ?_ (hext_alloc _ _)
    exact hext_foldl _ (fun s e => hStepWithPrototype_ext _ _ _) _ _
  · exact hext_refl h

theorem hAmend_fresh (runtime : List (String × String)) (fuel : Nat) (h : Heap)
    (a : Nat) (ver desc argsA protoA stepsA : Nat)
    (hp : h.get? a = some (.hpipeline ver desc argsA protoA stepsA)) :
    h.length ≤ (hAmend runtime fuel h a).2 := by
  obtain ⟨hlen1, v2, d2, a2, p2, s2, hget⟩ :=
    hPipelineWithArgs_shape runtime fuel h a ver desc argsA protoA stepsA hp
  have h2 := hPipelineWithPrototype_shape (hPipelineWithArgs runtime fuel h a).1
    (hPipelineWithArgs runtime fuel h a).2 v2 d2 a2 p2 s2 hget
  have h3 := hext_length (hPipelineWithArgs_ext runtime fuel h a)
  unfold hAmend
  show h.length ≤ (hPipelineWithPrototype (hPipelineWithArgs runtime fuel h a).1
    (hPipelineWithArgs runtime fuel h a).2).2
  omega

theorem pyOr_truthy (a b : Value) (h : truthy a = true) : pyOr a b = a := by
  simp only [pyOr, h, if_true]

theorem pyOr_falsy (a b : Value) (h : truthy a = false) : pyOr a b = b := by
  simp only [pyOr, h, Bool.false_eq_true, if_false]

/-!
Claims
-/

/-- C1 (counterexample): the claim says every explicitly-set field of `s` —
including one explicitly set to `False` — is preserved unchanged by the
prototype merge.  `stepC1` has `gpus` explicitly set to `False` (not absent),
yet the merge replaces it with the prototype's `True`. -/
theorem proceed_C1_counterexample :
    stepC1.gpus ≠ .vnone ∧
    (stepC1._with_prototype_applied (some protoC1)).gpus ≠ stepC1.gpus := by
  decide

/-- C1 (amended): `Step._with_prototype_applied` keeps a scalar field of `s`
exactly when its value is truthy and fills it from `t` when it is falsy
(absent, or explicitly empty/False/zero); the mapping fields `volumes` and
`environment` become `t`'s mapping overlaid by `s`'s entries. -/
theorem proceed_C1_amended (s t : Step) :
    (truthy s.name = true → (s._with_prototype_applied (some t)).name = s.name) ∧
    (truthy s.name = false → (s._with_prototype_applied (some t)).name = t.name) ∧
    (truthy s.description = true →
      (s._with_prototype_applied (some t)).description = s.description) ∧
    (truthy s.description = false →
      (s._with_prototype_applied (some t)).description = t.description) ∧
    (truthy s.image = true → (s._with_prototype_applied (some t)).image = s.image) ∧
    (truthy s.image = false → (s._with_prototype_applied (some t)).image = t.image) ∧
    (truthy s.command = true →
      (s._with_prototype_applied (some t)).command = s.command) ∧
    (truthy s.command = false →
      (s._with_prototype_applied (some t)).command = t.command) ∧
    (truthy s.working_dir = true →
      (s._with_prototype_applied (some t)).working_dir = s.working_dir) ∧
    (truthy s.working_dir = false →
      (s._with_prototype_applied (some t)).working_dir = t.working_dir) ∧
    (truthy s.match_done = true →
      (s._with_prototype_applied (some t)).match_done = s.match_done) ∧
    (truthy s.match_done = false →
      (s._with_prototype_applied (some t)).match_done = t.match_done) ∧
    (truthy s.match_in = true →
      (s._with_prototype_applied (some t)).match_in = s.match_in) ∧
    (truthy s.match_in = false →
      (s._with_prototype_applied (some t)).match_in = t.match_in) ∧
    (truthy s.match_out = true →
      (s._with_prototype_applied (some t)).match_out = s.match_out) ∧
    (truthy s.match_out = false →
      (s._with_prototype_applied (some t)).match_out = t.match_out) ∧
    (truthy s.match_summary = true →
      (s._with_prototype_applied (some t)).match_summary = s.match_summary) ∧
    (truthy s.match_summary = false →
      (s._with_prototype_applied (some t)).match_summary = t.match_summary) ∧
    (truthy s.gpus = true → (s._with_prototype_applied (some t)).gpus = s.gpus) ∧
    (truthy s.gpus = false → (s._with_prototype_applied (some t)).gpus = t.gpus) ∧
    (truthy s.user = true → (s._with_prototype_applied (some t)).user = s.user) ∧
    (truthy s.user = false → (s._with_prototype_applied (some t)).user = t.user) ∧
    (truthy s.network_mode = true →
      (s._with_prototype_applied (some t)).network_mode = s.network_mode) ∧
    (truthy s.network_mode = false →
      (s._with_prototype_applied (some t)).network_mode = t.network_mode) ∧
    (truthy s.mac_address = true →
      (s._with_prototype_applied (some t)).mac_address = s.mac_address) ∧
    (truthy s.mac_address = false →
      (s._with_prototype_applied (some t)).mac_address = t.mac_address) ∧
    (s._with_prototype_applied (some t)).volumes =
      dict_update t.volumes s.volumes ∧
    (s._with_prototype_applied (some t)).environment =
      dict_update t.environment s.environment := by
  refine ⟨?_, ?_, ?_, ?_, ?_, ?_, ?_, ?_, ?_, ?_, ?_, ?_, ?_, ?_, ?_, ?_, ?_,
    ?_, ?_, ?_, ?_, ?_, ?_, ?_, ?_, ?_, rfl, rfl⟩ <;>
  · intro h
    first
    | simp only [Step._with_prototype_applied, pyOr_truthy _ _ h]
    | simp only [Step._with_prototype_applied, pyOr_falsy _ _ h]

/-- C1 (witness): `stepC1`'s name is truthy and is kept; its description is
falsy and is taken from the prototype. -/
theorem proceed_C1_witness :
    (stepC1._with_prototype_applied (some protoC1)).name = stepC1.name ∧
    (stepC1._with_prototype_applied (some protoC1)).description =
      protoC1.description :=
  ⟨(proceed_C1_amended stepC1 protoC1).1 (by decide),
   (proceed_C1_amended stepC1 protoC1).2.2.2.1 (by decide)⟩

/-- C2: every step result the run appends, other than possibly the last one,
has a falsy exit code — once a nonzero exit code is appended no further step
is attempted; attempted steps (trace entries) correspond one to one with
step results; and in the concrete 3-step pipeline whose second step exits
with a nonzero status, exactly two step results are produced and the engine
trace has no entry for step "three" (one engine invocation each for steps
"one" and "two"). -/
theorem proceed_C2 :
    (∀ (original : Pipeline) (execution_path : String)
      (args : List (String × String)) (force_rerun : Bool)
      (step_names : Option (List Value))
      (matcher : List Value → Value → Matches)
      (eng : Step → Nat → EngineOutcome) (clock : Nat → Nat) (i : Nat)
      (r : StepResult),
      (run_pipeline original execution_path args force_rerun step_names
        matcher eng clock).record.step_results.get? i = some r →
      i + 1 < (run_pipeline original execution_path args force_rerun step_names
        matcher eng clock).record.step_results.length →
      exitTruthy r.exit_code = false) ∧
    (∀ (original : Pipeline) (execution_path : String)
      (args : List (String × String)) (force_rerun : Bool)
      (step_names : Option (List Value))
      (matcher : List Value → Value → Matches)
      (eng : Step → Nat → EngineOutcome) (clock : Nat → Nat),
      (run_pipeline original execution_path args force_rerun step_names
        matcher eng clock).trace.length =
      (run_pipeline original execution_path args force_rerun step_names
        matcher eng clock).record.step_results.length) ∧
    (run_pipeline pipelineC2 "/exec" [] false none matcherEmpty engC2
      (fun n => n)).record.step_results.length = 2 ∧
    (run_pipeline pipelineC2 "/exec" [] false none matcherEmpty engC2
      (fun n => n)).trace = [(.vstr "one", 1), (.vstr "two", 1)] := by
  refine ⟨?_, ?_, by set_option maxRecDepth 8000 in decide,
    by set_option maxRecDepth 8000 in decide⟩
  · intro original execution_path args force_rerun step_names matcher eng clock
      i r hget hlen
    exact run_pipeline_steps_falsy execution_path force_rerun step_names
      matcher eng clock (amend original args).steps 1 [] []
      (fun r' hr' => absurd hr' (List.not_mem_nil r')) i r hget hlen
  · intro original execution_path args force_rerun step_names matcher eng clock
    exact run_pipeline_steps_trace_length execution_path force_rerun step_names
      matcher eng clock (amend original args).steps 1 [] [] rfl

/-- C2 (witness): in the concrete failing 3-step run, the general invariant
applies to the first of the two appended results. -/
theorem proceed_C2_witness :
    ∃ r : StepResult,
      (run_pipeline pipelineC2 "/exec" [] false none matcherEmpty engC2
        (fun n => n)).record.step_results.get? 0 = some r ∧
      exitTruthy r.exit_code = false :=
  ⟨_, rfl, proceed_C2.1 pipelineC2 "/exec" [] false none matcherEmpty engC2
    (fun n => n) 0 _ rfl (by decide)⟩

set_option maxRecDepth 8000 in
/-- C3: the step whose engine call raises a backend/server error on attempts
1 and 2 and succeeds on attempt 3 (budget 3) does yield `skipped = false` and
`exit_code = 0` after 3 invocations — but the final log file holds only the
successful attempt's streamed chunks and zero retry-marker lines, because the
successful attempt reopens the log with mode `'w'` and truncates the two
markers appended by the failed attempts. -/
theorem proceed_C3_divergence :
    (run_step stepC3 "/exec/flaky_step.log" false matcherEmpty engC3 []
      (fun n => n) 0 3).result.skipped = false ∧
    (run_step stepC3 "/exec/flaky_step.log" false matcherEmpty engC3 []
      (fun n => n) 0 3).result.exit_code = some 0 ∧
    (run_step stepC3 "/exec/flaky_step.log" false matcherEmpty engC3 []
      (fun n => n) 0 3).invocations = 3 ∧
    (run_step stepC3 "/exec/flaky_step.log" false matcherEmpty engC3 []
      (fun n => n) 0 3).log = ["hello\n"] ∧
    ((run_step stepC3 "/exec/flaky_step.log" false matcherEmpty engC3 []
      (fun n => n) 0 3).log.countP isRetryMarkerLine) = 0 := by
  decide

/-- C4: a client-side configuration error on the first attempt makes
`run_container` return at once with exit code −1 and the error, after exactly
one engine invocation and without touching the log, for every attempt budget
of at least one. -/
theorem proceed_C4 (step : Step) (eng : Step → Nat → EngineOutcome)
    (log : List String) (max_attempts : Nat) (msg : String)
    (hclient : eng step 0 = .clientError msg) (hmax : 1 ≤ max_attempts) :
    run_container step eng log max_attempts =
      ⟨none, -1, some (.apiError true msg), log, 1⟩ := by
  obtain ⟨k, rfl⟩ : ∃ k, max_attempts = k + 1 :=
    ⟨max_attempts - 1, by omega⟩
  unfold run_container
  unfold run_container_loop
  rw [hclient]

/-- C4 (witness): the concrete client-error engine at budget 3. -/
theorem proceed_C4_witness :
    run_container stepC9 engClientErr [] 3 =
      ⟨none, -1, some (.apiError true "invalid reference format"), [], 1⟩ :=
  proceed_C4 stepC9 engClientErr [] 3 "invalid reference format" rfl
    (by decide)

/-- C5: when the matcher finds done files for `match_done` and force-rerun is
unset, `run_step` returns a skipped `StepResult` carrying the matched files,
no exit code, no image id, no log file, and a `Timing` with only `start`; the
log is untouched and the engine is never invoked (0 invocations). -/
theorem proceed_C5 (step : Step) (log_path : String)
    (matcher : List Value → Value → Matches) (eng : Step → Nat → EngineOutcome)
    (log : List String) (clock : Nat → Nat) (t max_attempts : Nat)
    (hdone : matcher (dictKeys step.volumes) step.match_done ≠ []) :
    run_step step log_path false matcher eng log clock t max_attempts =
      ⟨{ name := step.name
         skipped := true
         files_done := matcher (dictKeys step.volumes) step.match_done
         timing := some { start := some (clock t) } }, log, 0, t + 1⟩ := by
  unfold run_step
  have hne : (matcher (dictKeys step.volumes) step.match_done).isEmpty =
      false := by
    cases hm : matcher (dictKeys step.volumes) step.match_done with
    | nil => exact absurd hm hdone
    | cons a l => rfl
  simp only [hne, Bool.not_false, Bool.not_true, Bool.and_true, if_true]

/-- C5 (witness): the concrete done-file matcher skips `stepC5`. -/
theorem proceed_C5_witness :
    run_step stepC5 "/exec/done_step.log" false matcherC5 engC2 []
      (fun n => n) 0 3 =
      ⟨{ name := stepC5.name
         skipped := true
         files_done := matcherC5 (dictKeys stepC5.volumes) stepC5.match_done
         timing := some { start := some 0 } }, [], 0, 1⟩ :=
  proceed_C5 stepC5 "/exec/done_step.log" matcherC5 engC2 [] (fun n => n) 0 3
    (by decide)

/-- C6: amending on the heap never mutates the original pipeline or anything
reachable from it — every address allocated before the amendment still holds
exactly the object it held before — and when the amended address denotes a
pipeline object it is a newly allocated value (its address is past the end of
the original heap). -/
theorem proceed_C6 (runtime : List (String × String)) (fuel : Nat) (h : Heap)
    (a : Nat) :
    (∀ i, i < h.length → (hAmend runtime fuel h a).1.get? i = h.get? i) ∧
    (∀ ver desc argsA protoA stepsA : Nat,
      h.get? a = some (.hpipeline ver desc argsA protoA stepsA) →
      h.length ≤ (hAmend runtime fuel h a).2) :=
  ⟨fun _ hi => hext_get (hAmend_ext runtime fuel h a) hi,
   fun ver desc argsA protoA stepsA hp =>
    hAmend_fresh runtime fuel h a ver desc argsA protoA stepsA hp⟩

/-- C6 (witness): on the concrete four-object heap, address 0 is unchanged by
the amendment and the amended pipeline's address is fresh. -/
theorem proceed_C6_witness :
    (hAmend [] 1 heapC6 3).1.get? 0 = heapC6.get? 0 ∧
    heapC6.length ≤ (hAmend [] 1 heapC6 3).2 :=
  ⟨(proceed_C6 [] 1 heapC6 3).1 0 (by decide),
   (proceed_C6 [] 1 heapC6 3).2 0 0 1 0 2 rfl⟩

/-- C7 (counterexample): the claim asserts idempotence whenever the arg
values contain no placeholders.  With `args = [("a", "b")]` (value `"b"` has
no `$` at all) and `P = "$$a"`, one resolution yields `"$a"` (the `$$` escape
collapses) and a second resolution then substitutes, yielding `"b"`. -/
theorem proceed_C7_counterexample :
    (argsC7.all fun kv => noDollarStr kv.2) = true ∧
    apply_args argsC7 (apply_args argsC7 specC7) ≠ apply_args argsC7 specC7 := by
  decide

/-- C7 (amended): resolution is idempotent on every specification whose
one-pass result is free of `$` characters: if no string anywhere in
`apply_args args v` contains `$`, then a second application changes
nothing. -/
theorem proceed_C7_amended (args : List (String × String)) (v : Value)
    (h : allStrV noDollarStr (apply_args args v) = true) :
    apply_args args (apply_args args v) = apply_args args v :=
  applyArgsFixV args noDollarStr (fun s hs => substitute_noDollar args s hs)
    (apply_args args v) h (wfKeysV_apply args v)

/-- C7 (witness): a fully substituted spec resolves idempotently. -/
theorem proceed_C7_witness :
    apply_args [("a", "b")] (apply_args [("a", "b")] (.vstr "x ${a}")) =
      apply_args [("a", "b")] (.vstr "x ${a}") :=
  proceed_C7_amended [("a", "b")] (.vstr "x ${a}") (by decide)

/-- C8 (counterexample): the claim asserts `amend(P, {})` is the identity on
the step list of a pipeline with empty args and no prototype; but a step
string containing the `$$` escape is rewritten (`"a$$b"` becomes `"a$b"`)
even with empty args. -/
theorem proceed_C8_counterexample :
    pipelineC8.args = [] ∧ pipelineC8.prototype = none ∧
    (amend pipelineC8 []).steps ≠ pipelineC8.steps := by
  decide

/-- C8 (amended): on a pipeline with empty declared args and no prototype,
`amend(P, {})` is the identity on the step list provided no string of any
step contains a `$$` escape (and dict keys are pairwise distinct, as Python
dicts guarantee). -/
theorem proceed_C8_amended (p : Pipeline) (hargs : p.args = [])
    (hproto : p.prototype = none)
    (hsteps : p.steps.all (fun s => stepAllStr noDDStr s && stepWfKeys s) =
      true) :
    (amend p []).steps = p.steps := by
  unfold amend Pipeline._with_args_applied Pipeline._with_prototype_applied
    Pipeline._combine_args
  simp only [hargs, hproto, List.map_nil, Option.map_none', List.map_map]
  have hid : ∀ s ∈ p.steps,
      ((fun step => Step._with_prototype_applied step none) ∘
        (fun step => Step._with_args_applied step [])) s = s := by
    intro s hs
    have h2 : stepAllStr noDDStr s = true ∧ stepWfKeys s = true := by
      simpa [Bool.and_eq_true] using List.all_eq_true.mp hsteps s hs
    simp only [Function.comp_apply]
    rw [stepWithArgs_empty_id s h2.1 h2.2]
    rfl
  rw [List.map_congr_left hid, List.map_id']

/-- C8 (witness): a concrete escape-free pipeline is amended to itself. -/
theorem proceed_C8_witness :
    (amend pipelineC2 []).steps = pipelineC2.steps :=
  proceed_C8_amended pipelineC2 rfl rfl (by decide)

/-- C9 (counterexample): the claim says the `match_in` result is recorded as
`files_in` whether the step succeeds or fails.  On the concrete failing step
the matcher finds an input file, the step is attempted (not skipped) and
fails with −1, yet the emitted `StepResult` has empty `files_in`. -/
theorem proceed_C9_counterexample :
    matcherC9 (dictKeys stepC9.volumes) stepC9.match_in ≠ [] ∧
    (run_step stepC9 "/exec/s.log" false matcherC9 engClientErr []
      (fun n => n) 0 3).result.skipped = false ∧
    (run_step stepC9 "/exec/s.log" false matcherC9 engClientErr []
      (fun n => n) 0 3).result.exit_code = some (-1) ∧
    (run_step stepC9 "/exec/s.log" false matcherC9 engClientErr []
      (fun n => n) 0 3).result.files_in = [] := by
  decide

/-- C9 (amended): for an attempted step the `match_in` query never gates
execution — the engine invocation count is exactly that of the run loop,
whatever the matcher returns — but its result is recorded in the `StepResult`
only when the run loop returns without error; on failure `files_in` is left
empty. -/
theorem proceed_C9_amended (step : Step) (log_path : String)
    (force_rerun : Bool) (matcher : List Value → Value → Matches)
    (eng : Step → Nat → EngineOutcome) (log : List String) (clock : Nat → Nat)
    (t max_attempts : Nat)
    (hrun : matcher (dictKeys step.volumes) step.match_done = [] ∨
      force_rerun = true) :
    ((run_container step eng log max_attempts).exception = none →
      (run_step step log_path force_rerun matcher eng log clock t
        max_attempts).result.files_in =
        matcher (dictKeys step.volumes) step.match_in) ∧
    (∀ e, (run_container step eng log max_attempts).exception = some e →
      (run_step step log_path force_rerun matcher eng log clock t
        max_attempts).result.files_in = []) ∧
    (run_step step log_path force_rerun matcher eng log clock t
      max_attempts).invocations =
      (run_container step eng log max_attempts).invocations := by
  have hcond : (!(matcher (dictKeys step.volumes) step.match_done).isEmpty &&
      !force_rerun) = false := by
    rcases hrun with hd | hf
    · simp [hd]
    · simp [hf]
  unfold run_step
  simp only [hcond, Bool.false_eq_true, if_false]
  rcases hexc : (run_container step eng log max_attempts).exception with _ | e
  · simp [hexc]
  · simp [hexc]

/-- C9 (witness): on a successful run of the concrete step, the matcher's
`match_in` result is recorded. -/
theorem proceed_C9_witness :
    (run_step stepC9 "/exec/s.log" false matcherC9 engC2 [] (fun n => n) 0
      3).result.files_in = matcherC9 (dictKeys stepC9.volumes) stepC9.match_in :=
  (proceed_C9_amended stepC9 "/exec/s.log" false matcherC9 engC2 []
    (fun n => n) 0 3 (Or.inl (by decide))).1 rfl

/-- C10: the whole-run timing of the returned `ExecutionRecord` always has
start, finish and duration set, whatever the pipeline, filters, matcher,
engine behavior or clock — in particular when a step fails and the run stops
early, when every step is skipped or filtered out, and when the step list is
empty. -/
theorem proceed_C10 (original : Pipeline) (execution_path : String)
    (args : List (String × String)) (force_rerun : Bool)
    (step_names : Option (List Value)) (matcher : List Value → Value → Matches)
    (eng : Step → Nat → EngineOutcome) (clock : Nat → Nat) :
    (run_pipeline original execution_path args force_rerun step_names matcher
      eng clock).record.timing.start.isSome = true ∧
    (run_pipeline original execution_path args force_rerun step_names matcher
      eng clock).record.timing.finish.isSome = true ∧
    (run_pipeline original execution_path args force_rerun step_names matcher
      eng clock).record.timing.duration.isSome = true :=
  ⟨rfl, rfl, rfl⟩
